import Mathlib

/-!
Formal model of the conversation-orchestration core of the AIML repository:
the Bedrock MCP CLI starter (`core/tools.py`, `core/chat.py`,
`core/cli_chat.py`, `core/bedrock.py`) and the roots streaming CLI
(`core/cli.py`).  Each definition below is a shallow embedding of the
corresponding Python function; the theorems settle the documented
behavioural properties of this code.
-/

/-- JSON values, modelling the values handled by the Python `json` module.
Numeric literals are restricted to integers, which covers every payload
exercised by the orchestration core. -/
inductive Json where
  | null
  | bool (b : Bool)
  | num (n : Int)
  | str (s : String)
  | arr (elems : List Json)
  | obj (members : List (String × Json))

/-- Skip JSON whitespace, as `json.loads` does between tokens. -/
def skipWs : List Char → List Char
  | [] => []
  | c :: rest => if c.isWhitespace then skipWs rest else c :: rest

/-- Parse the body of a JSON string literal (after the opening quote),
returning the decoded characters and the remaining input.  Supports the
escape sequences that occur in the payloads handled by this code. -/
def parseStringChars : List Char → Option (List Char × List Char)
  | [] => none
  | c :: rest =>
    if c = '"' then some ([], rest)
    else if c = '\\' then
      match rest with
      | [] => none
      | e :: rest2 =>
        let esc : Option Char :=
          if e = '"' then some '"'
          else if e = '\\' then some '\\'
          else if e = '/' then some '/'
          else if e = 'n' then some '\n'
          else if e = 't' then some '\t'
          else if e = 'r' then some '\r'
          else none
        match esc with
        | some ch => (parseStringChars rest2).map (fun p => (ch :: p.1, p.2))
        | none => none
    else (parseStringChars rest).map (fun p => (c :: p.1, p.2))

/-- Take a maximal run of decimal digits. -/
def takeDigits : List Char → List Char × List Char
  | [] => ([], [])
  | c :: rest =>
    if c.isDigit then
      let p := takeDigits rest
      (c :: p.1, p.2)
    else ([], c :: rest)

/-- Decimal digits to a natural number. -/
def digitsToNat (ds : List Char) : Nat :=
  ds.foldl (fun acc c => acc * 10 + (c.toNat - 48)) 0

/-- Parse a JSON integer literal (optionally negative). -/
def parseNumberChars : List Char → Option (Json × List Char)
  | [] => none
  | c :: rest =>
    if c = '-' then
      match takeDigits rest with
      | ([], _) => none
      | (ds, r) => some (Json.num (-(digitsToNat ds : Int)), r)
    else if c.isDigit then
      match takeDigits (c :: rest) with
      | (ds, r) => some (Json.num (digitsToNat ds), r)
    else none

mutual

/-- Recursive-descent JSON value parser (fuel-indexed), modelling
`json.loads` on the integer fragment of JSON. -/
def parseValue : Nat → List Char → Option (Json × List Char)
  | 0, _ => none
  | fuel + 1, cs =>
    match skipWs cs with
    | [] => none
    | c :: rest =>
      if c = '"' then
        (parseStringChars rest).map (fun p => (Json.str (String.mk p.1), p.2))
      else if c = Char.ofNat 123 then
        match skipWs rest with
        | [] => none
        | d :: rest2 =>
          if d = Char.ofNat 125 then some (Json.obj [], rest2)
          else (parseMembers fuel (d :: rest2)).map (fun p => (Json.obj p.1, p.2))
      else if c = '[' then
        match skipWs rest with
        | [] => none
        | d :: rest2 =>
          if d = ']' then some (Json.arr [], rest2)
          else (parseItems fuel (d :: rest2)).map (fun p => (Json.arr p.1, p.2))
      else if c = 't' then
        match rest with
        | 'r' :: 'u' :: 'e' :: r => some (Json.bool true, r)
        | _ => none
      else if c = 'f' then
        match rest with
        | 'a' :: 'l' :: 's' :: 'e' :: r => some (Json.bool false, r)
        | _ => none
      else if c = 'n' then
        match rest with
        | 'u' :: 'l' :: 'l' :: r => some (Json.null, r)
        | _ => none
      else parseNumberChars (c :: rest)

/-- Parse the members of a JSON object (cursor just before the first key). -/
def parseMembers : Nat → List Char → Option (List (String × Json) × List Char)
  | 0, _ => none
  | fuel + 1, cs =>
    match skipWs cs with
    | [] => none
    | c :: rest =>
      if c = '"' then
        match parseStringChars rest with
        | none => none
        | some (key, rest2) =>
          match skipWs rest2 with
          | ':' :: rest3 =>
            match parseValue fuel rest3 with
            | none => none
            | some (v, rest4) =>
              match skipWs rest4 with
              | ',' :: rest5 =>
                (parseMembers fuel rest5).map
                  (fun p => ((String.mk key, v) :: p.1, p.2))
              | d :: rest5 =>
                if d = Char.ofNat 125 then some ([(String.mk key, v)], rest5)
                else none
              | [] => none
          | _ => none
      else none

/-- Parse the items of a JSON array (cursor just before the first item). -/
def parseItems : Nat → List Char → Option (List Json × List Char)
  | 0, _ => none
  | fuel + 1, cs =>
    match parseValue fuel cs with
    | none => none
    | some (v, rest) =>
      match skipWs rest with
      | ',' :: rest2 => (parseItems fuel rest2).map (fun p => (v :: p.1, p.2))
      | d :: rest2 => if d = ']' then some ([v], rest2) else none
      | [] => none

end

/-- Embedding of `json.loads`: parse a whole string as one JSON value,
rejecting trailing garbage (returns `none` where Python raises
`json.JSONDecodeError`). -/
def loads (s : String) : Option Json :=
  match parseValue (s.length + 1) s.data with
  | some (j, rest) => if (skipWs rest).isEmpty then some j else none
  | none => none

/-- Escape one character as `json.dumps` does for the payloads at hand. -/
def escapeJsonChar (c : Char) : List Char :=
  if c = '"' then ['\\', '"']
  else if c = '\\' then ['\\', '\\']
  else if c = '\n' then ['\\', 'n']
  else if c = '\t' then ['\\', 't']
  else if c = '\r' then ['\\', 'r']
  else [c]

/-- Embedding of `json.dumps` on a string. -/
def dumpsString (s : String) : String :=
  "\"" ++ String.mk (s.data.foldr (fun c acc => escapeJsonChar c ++ acc) []) ++ "\""

/-- Embedding of `json.dumps` on a list of strings (default separators). -/
def dumpsStringList (l : List String) : String :=
  "[" ++ String.intercalate ", " (l.map dumpsString) ++ "]"

/-- Embedding of `json.dumps` applied to a one-key error object, as built in
the exception handler of `ToolManager.execute_tool_requests`. -/
def dumps_error_obj (msg : String) : String :=
  "\x7b\"error\": " ++ dumpsString msg ++ "\x7d"

example : loads "\x7b\"a\":1,\"b\":2\x7d"
    = some (Json.obj [("a", Json.num 1), ("b", Json.num 2)]) := rfl

example : loads "\x7b\"a\":" = none := rfl

/-- An MCP tool descriptor (`mcp.types.Tool`), reduced to the fields the
orchestration core reads. -/
structure Tool where
  name : String
  description : String

/-- One item of a `CallToolResult.content` list: either a
`mcp.types.TextContent` (carrying its text) or some other content kind. -/
inductive ContentItem where
  | text (t : String)
  | other

/-- Model of `mcp.types.CallToolResult`, reduced to the fields the core reads. -/
structure CallToolResult where
  content : List ContentItem
  isError : Bool

/-- A connected MCP client session (`MCPClient`).  `cid` is an identity tag.
`list_tools` models `await client.list_tools()` and `call_tool` models
`await client.call_tool(name, input)`; an `Except.error` value models a
raised Python exception.  `call_tool` may return `none` (the
`CallToolResult | None` annotation in the source). -/
structure MCPClient where
  cid : Nat
  list_tools : Except String (List Tool)
  call_tool : Option String → Json → Except String (Option CallToolResult)

/-- Result of `tool_use.get("toolUseId") / .get("name") / .get("input", \x7b\x7d)`:
each field may be absent from the dict, hence the `Option`s. -/
structure ToolUse where
  toolUseId : Option String
  name : Option String
  input : Option Json

/-- One `\x7b"text": ...\x7d` entry of a tool-result content list. -/
structure ToolResultContent where
  text : String

/-- The payload of a `"toolResult"` part. -/
structure ToolResultData where
  toolUseId : Option String
  content : List ToolResultContent
  status : String

/-- A Bedrock message part.  `toolUsePart none` models a part whose
`"toolUse"` key is present but holds a falsy value (Python `None` or an
empty dict) - the source guards on `if not tool_use` after `.get`. -/
inductive MsgPart where
  | toolUsePart (v : Option ToolUse)
  | toolResultPart (r : ToolResultData)
  | textPart (t : String)
  | otherPart

/-- Test `"toolUse" in part`. -/
def hasToolUseKey : MsgPart → Bool
  | .toolUsePart _ => true
  | _ => false

/-- The truthy `toolUse` payload of a part, if any. -/
def getToolUse : MsgPart → Option ToolUse
  | .toolUsePart (some tu) => some tu
  | _ => none

/-- The `toolUseId` carried by a `"toolResult"` part, if the part is one. -/
def resultId : MsgPart → Option (Option String)
  | .toolResultPart r => some r.toolUseId
  | _ => none

/-- The `status` carried by a `"toolResult"` part, if the part is one. -/
def resultStatus : MsgPart → Option String
  | .toolResultPart r => some r.status
  | _ => none

/-- The first content text carried by a `"toolResult"` part, if any. -/
def resultFirstText : MsgPart → Option String
  | .toolResultPart r => (r.content.head?).map ToolResultContent.text
  | _ => none

/-- Embedding of `ToolManager._build_tool_result_part`. -/
def build_tool_result_part (tool_use_id : Option String) (text : String)
    (status : String) : MsgPart :=
  .toolResultPart ⟨tool_use_id, [⟨text⟩], status⟩

/-- Embedding of `ToolManager.get_all_tools`: `tools = []`, then `tools +=
await client.list_tools()` for each client in dict-insertion order - an
exception from any `list_tools` propagates out. -/
def get_all_tools : List MCPClient → Except String (List Tool)
  | [] => .ok []
  | c :: rest =>
    match c.list_tools with
    | .error e => .error e
    | .ok ts =>
      match get_all_tools rest with
      | .error e => .error e
      | .ok acc => .ok (ts ++ acc)

/-- The generator predicate `t.name == tool_name` of
`_find_client_with_tool` (`tool_name` may be Python `None`, which equals
no string). -/
def tool_name_matches (toolName : Option String) (t : Tool) : Bool :=
  match toolName with
  | some n => t.name == n
  | none => false

/-- Embedding of `ToolManager._find_client_with_tool`: scan clients in order, returning
the first whose catalog contains `toolName`; each scan step awaits
`client.list_tools()`, whose exception propagates out. -/
def find_client_with_tool : List MCPClient → Option String →
    Except String (Option MCPClient)
  | [], _ => .ok none
  | c :: rest, toolName =>
    match c.list_tools with
    | .error e => .error e
    | .ok tools =>
      match tools.find? (tool_name_matches toolName) with
      | some _ => .ok (some c)
      | none => find_client_with_tool rest toolName

/-- Python `str(x)` on an optional string (`None` prints as `"None"`),
as used by the f-string in the exception handler. -/
def pyOptStr : Option String → String
  | none => "None"
  | some s => s

/-- The f-string `Error executing tool ...` of the exception handler. -/
def exec_error_message (toolName : Option String) (e : String) : String :=
  "Error executing tool \x27" ++ pyOptStr toolName ++ "\x27: " ++ e

/-- The body of the `for tool_request in tool_requests` loop of
`ToolManager.execute_tool_requests`, for one truthy `toolUse` payload:
resolve the owning client, build the not-found error part, or call the
tool and convert its output (or its exception) into a result part. -/
def execute_tool_request (clients : List MCPClient) (tu : ToolUse) :
    Except String MsgPart :=
  match find_client_with_tool clients tu.name with
  | .error e => .error e
  | .ok none =>
    .ok (build_tool_result_part tu.toolUseId "Could not find that tool" "error")
  | .ok (some c) =>
    match c.call_tool tu.name (tu.input.getD (Json.obj [])) with
    | .error e =>
      .ok (MsgPart.toolResultPart
        ⟨tu.toolUseId, [⟨dumps_error_obj (exec_error_message tu.name e)⟩], "error"⟩)
    | .ok tool_output =>
      let items := match tool_output with
        | some o => o.content
        | none => []
      let content_list := items.filterMap fun item =>
        match item with
        | ContentItem.text t => some t
        | ContentItem.other => none
      let content_json := dumpsStringList content_list
      let status := match tool_output with
        | some o => if o.isError then "error" else "success"
        | none => "success"
      .ok (build_tool_result_part tu.toolUseId content_json status)

/-- The request loop of `ToolManager.execute_tool_requests`: parts whose
`toolUse` value is falsy are skipped (`continue`) without a result. -/
def execute_requests_loop (clients : List MCPClient) :
    List MsgPart → Except String (List MsgPart)
  | [] => .ok []
  | p :: rest =>
    match getToolUse p with
    | none => execute_requests_loop clients rest
    | some tu =>
      match execute_tool_request clients tu with
      | .error e => .error e
      | .ok r =>
        match execute_requests_loop clients rest with
        | .error e => .error e
        | .ok rs => .ok (r :: rs)

/-- Embedding of `ToolManager.execute_tool_requests`: filter the parts containing a
`"toolUse"` key, then run the request loop. -/
def execute_tool_requests (clients : List MCPClient) (parts : List MsgPart) :
    Except String (List MsgPart) :=
  execute_requests_loop clients (parts.filter hasToolUseKey)

/-- One entry of the Bedrock message log: `\x7b"role": ..., "content": ...\x7d`. -/
structure Message where
  role : String
  content : List MsgPart

/-- Embedding of `Bedrock.add_assistant_message` with a list content (`core/bedrock.py`):
appends `\x7b"role": "assistant", "content": parts\x7d` to the log. -/
def add_assistant_message (messages : List Message) (content : List MsgPart) :
    List Message :=
  messages ++ [⟨"assistant", content⟩]

/-- Embedding of `Bedrock.add_user_message` with a list content (`core/bedrock.py`):
appends `\x7b"role": "user", "content": parts\x7d` to the log. -/
def add_user_message (messages : List Message) (content : List MsgPart) :
    List Message :=
  messages ++ [⟨"user", content⟩]

/-- One return value of `Bedrock.chat`: the dict
`\x7b"parts": ..., "stop_reason": ..., "text": ...\x7d`. -/
structure BedrockResponse where
  parts : List MsgPart
  stop_reason : String
  text : String

/-- The `while True` loop of `Chat.run`, driven by the model backend
modelled as the script of responses it returns, in order.  Each iteration
first awaits `ToolManager.get_all_tools` (whose exception propagates) and
consumes one backend response; an exhausted script models an unavailable
backend.  The returned pair is the final message log and
`final_text_response`. -/
def chat_loop (clients : List MCPClient) :
    List BedrockResponse → List Message → Except String (List Message × String)
  | [], _ => .error "backend unavailable"
  | r :: script, messages =>
    match get_all_tools clients with
    | .error e => .error e
    | .ok _tools =>
      let messages1 := add_assistant_message messages r.parts
      if r.stop_reason = "tool_use" then
        match execute_tool_requests clients r.parts with
        | .error e => .error e
        | .ok tool_result_parts =>
          chat_loop clients script (add_user_message messages1 tool_result_parts)
      else
        .ok (messages1, r.text)

/-- Embedding of `Chat._process_query`: append `\x7b"role": "user", "content":
[\x7b"text": query\x7d]\x7d`. -/
def chat_process_query (messages : List Message) (query : String) :
    List Message :=
  messages ++ [⟨"user", [MsgPart.textPart query]⟩]

/-- Embedding of `Chat.run`: process the query, then run the orchestration loop. -/
def chat_run (clients : List MCPClient) (script : List BedrockResponse)
    (messages : List Message) (query : String) :
    Except String (List Message × String) :=
  chat_loop clients script (chat_process_query messages query)

/-- Model of `mcp.types.PromptMessage` content: either `TextContent` or other. -/
inductive PromptContent where
  | text (t : String)
  | other

/-- Model of `mcp.types.PromptMessage`. -/
structure PromptMessage where
  role : String
  content : PromptContent

/-- Embedding of `to_bedrock_messages` (`core/bedrock.py`): keep the messages whose
content is a `TextContent` and convert each to a Bedrock message. -/
def to_bedrock_messages (messages : List PromptMessage) : List Message :=
  messages.filterMap fun m =>
    match m.content with
    | .text t => some ⟨m.role, [MsgPart.textPart t]⟩
    | .other => none

/-- The document session (`self.doc_client`) as used by `CliChat`:
`get_prompt command \x7b"doc_id": d\x7d`, `read_resource` over the doc ids
and a doc content lookup. -/
structure DocClient where
  get_prompt : String → String → List PromptMessage
  list_doc_ids : List String
  read_doc : String → String

/-- Python `str.split()` with no separator: split on runs of whitespace,
dropping empty words. -/
def pySplitChars : List Char → List Char → List String
  | [], cur => if cur.isEmpty then [] else [String.mk cur.reverse]
  | c :: rest, cur =>
    if c.isWhitespace then
      if cur.isEmpty then pySplitChars rest []
      else String.mk cur.reverse :: pySplitChars rest []
    else pySplitChars rest (c :: cur)

/-- Python `query.split()`. -/
def pySplit (s : String) : List String :=
  pySplitChars s.data []

/-- Python `query.startswith("/")`. -/
def startsWithSlash (s : String) : Bool :=
  match s.data with
  | c :: _ => c = '/'
  | [] => false

/-- Python `words[0].replace("/", "")`: delete every slash. -/
def removeSlashes (s : String) : String :=
  String.mk (s.data.filter (fun c => c ≠ '/'))

/-- Embedding of `CliChat._process_command`: on a `/`-prefixed query, fetch the named
prompt template from the document session with `\x7b"doc_id": words[1]\x7d`
and append its converted messages; `words[1]` on a one-word query models the
uncaught Python `IndexError`.  `ok none` stands for `return False` (not a
command), `ok (some msgs)` for `return True` with the updated log. -/
def process_command (doc_client : DocClient) (messages : List Message)
    (query : String) : Except String (Option (List Message)) :=
  if startsWithSlash query then
    let words := pySplit query
    match words.get? 1 with
    | none => .error "IndexError: list index out of range"
    | some arg =>
      let command := removeSlashes (words.headD "")
      .ok (some (messages ++ to_bedrock_messages (doc_client.get_prompt command arg)))
  else
    .ok none

/-- Embedding of `CliChat._extract_resources`: collect `@`-mentions, then join the
`<document>` blocks of every known doc id that was mentioned. -/
def extract_resources (doc_client : DocClient) (query : String) : String :=
  let mentions := (pySplit query).filterMap fun w =>
    match w.data with
    | '@' :: cs => some (String.mk cs)
    | _ => none
  let mentioned_docs := doc_client.list_doc_ids.filterMap fun d =>
    if mentions.contains d then some (d, doc_client.read_doc d) else none
  String.join (mentioned_docs.map fun p =>
    "\n<document id=\"" ++ p.1 ++ "\">\n" ++ p.2 ++ "\n</document>\n")

/-- The f-string prompt built by `CliChat._process_query` around a
non-command query and its extracted context. -/
def wrapped_prompt (query : String) (added_resources : String) : String :=
  "\n        The user has a question:\n        <query>\n        " ++ query ++
  "\n        </query>\n\n        The following context may be useful in answering their question:\n        <context>\n        " ++
  added_resources ++
  "\n        </context>\n\n        Note the user\x27s query might contain references to documents like \"@report.docx\". The \"@\" is only\n        included as a way of mentioning the doc. The actual name of the document would be \"report.docx\".\n        If the document content is included in this prompt, you don\x27t need to use an additional tool to read the document.\n        Answer the user\x27s question directly and concisely. Start with the exact information they need. \n        Don\x27t refer to or mention the provided context in any way - just use it to inform your answer.\n        "

/-- Embedding of `CliChat._process_query`: the command shortcut path, or otherwise the
wrapped prompt appended as a user message. -/
def cli_process_query (doc_client : DocClient) (messages : List Message)
    (query : String) : Except String (List Message) :=
  match process_command doc_client messages query with
  | .error e => .error e
  | .ok (some msgs) => .ok msgs
  | .ok none =>
    let added_resources := extract_resources doc_client query
    .ok (messages ++ [⟨"user", [MsgPart.textPart (wrapped_prompt query added_resources)]⟩])

/-- Embedding of `CliChat.run` (inherited `Chat.run` with the overridden
`_process_query`): process the query, then run the orchestration loop. -/
def cli_run (doc_client : DocClient) (clients : List MCPClient)
    (script : List BedrockResponse) (messages : List Message)
    (query : String) : Except String (List Message × String) :=
  match cli_process_query doc_client messages query with
  | .error e => .error e
  | .ok msgs => chat_loop clients script msgs

/-- The per-index accumulator of `tool_calls`:
`\x7b"name": ..., "args": ...\x7d`. -/
structure ToolCallAcc where
  name : String
  args : String

/-- The `event.delta` of a `content_block_delta` event. -/
inductive StreamDelta where
  | text_delta (text : String)
  | input_json_delta (partial_json : String)
  | otherDelta

/-- A provider stream event, as dispatched on `event.type` by
`handle_event` in `CliApp.run`.  `content_block_start` carries its index as
an `Option` because the source reads it with `getattr(event, "index", 0)`. -/
inductive StreamEvent where
  | content_block_start (index : Option Nat) (blockType : String) (blockName : String)
  | content_block_delta (index : Nat) (delta : StreamDelta)
  | content_block_stop (index : Nat)
  | otherEvent

/-- The structured input of a completed tool invocation: the parsed JSON
arguments, or the raw accumulated string when parsing failed. -/
inductive ParsedArgs where
  | parsed (j : Json)
  | raw (s : String)

/-- What `handle_event` emits to the display: streamed text chunks
(printed immediately) and completed tool invocations (the boxed tool call;
its exact box formatting is display-only and not modelled). -/
inductive StreamOutput where
  | textChunk (s : String)
  | toolCall (name : String) (args : ParsedArgs)

/-- The state held across events: `response_text` and the `tool_calls`
dict, keyed by block index. -/
structure StreamState where
  response_text : String
  tool_calls : List (Nat × ToolCallAcc)

/-- Dict lookup `tool_calls[i]` / `i in tool_calls`. -/
def tcLookup : List (Nat × ToolCallAcc) → Nat → Option ToolCallAcc
  | [], _ => none
  | (k, v) :: rest, i => if k = i then some v else tcLookup rest i

/-- Dict assignment `tool_calls[i] = v`: replace the existing entry, or
append a fresh one. -/
def tcSet : List (Nat × ToolCallAcc) → Nat → ToolCallAcc →
    List (Nat × ToolCallAcc)
  | [], i, v => [(i, v)]
  | (k, w) :: rest, i, v =>
    if k = i then (k, v) :: rest else (k, w) :: tcSet rest i v

/-- Dict deletion `del tool_calls[i]` (only reached under
`if event.index in tool_calls`). -/
def tcErase : List (Nat × ToolCallAcc) → Nat → List (Nat × ToolCallAcc)
  | [], _ => []
  | (k, v) :: rest, i =>
    if k = i then tcErase rest i else (k, v) :: tcErase rest i

/-- The `handle_event` callback of `CliApp.run` (`core/cli.py`): a pure
state transition returning the new state and the outputs emitted for this
event.  Text deltas are emitted immediately; tool-argument deltas only
accumulate; a `content_block_stop` on a registered index parses the
accumulated buffer (falling back to the raw string when `json.loads`
raises) and discards the entry.  The function is total: no branch throws. -/
def handle_event (st : StreamState) (e : StreamEvent) :
    StreamState × List StreamOutput :=
  match e with
  | .content_block_delta index delta =>
    match delta with
    | .text_delta t =>
      ({ st with response_text := st.response_text ++ t }, [.textChunk t])
    | .input_json_delta pj =>
      let acc := (tcLookup st.tool_calls index).getD ⟨"", ""⟩
      ({ st with tool_calls := tcSet st.tool_calls index { acc with args := acc.args ++ pj } }, [])
    | .otherDelta => (st, [])
  | .content_block_start index? blockType blockName =>
    if blockType = "tool_use" then
      let index := index?.getD 0
      let acc := (tcLookup st.tool_calls index).getD ⟨"", ""⟩
      ({ st with tool_calls := tcSet st.tool_calls index { acc with name := blockName } }, [])
    else (st, [])
  | .content_block_stop index =>
    match tcLookup st.tool_calls index with
    | some acc =>
      let out := match loads acc.args with
        | some j => StreamOutput.toolCall acc.name (.parsed j)
        | none => StreamOutput.toolCall acc.name (.raw acc.args)
      ({ st with tool_calls := tcErase st.tool_calls index }, [out])
    | none => (st, [])
  | .otherEvent => (st, [])

/-- Process a whole ordered event list, concatenating the emitted outputs
in arrival order. -/
def run_events : StreamState → List StreamEvent → StreamState × List StreamOutput
  | st, [] => (st, [])
  | st, e :: es =>
    let p1 := handle_event st e
    let p2 := run_events p1.1 es
    (p2.1, p1.2 ++ p2.2)

theorem exec_req_resultId (clients : List MCPClient) (tu : ToolUse) (r : MsgPart)
    (h : execute_tool_request clients tu = .ok r) :
    resultId r = some tu.toolUseId := by
  simp only [execute_tool_request] at h
  split at h
  · simp at h
  · simp only [Except.ok.injEq] at h; subst h; rfl
  · split at h
    · simp only [Except.ok.injEq] at h; subst h; rfl
    · simp only [Except.ok.injEq] at h; subst h; rfl

theorem exec_loop_ids (clients : List MCPClient) (l results : List MsgPart)
    (h : execute_requests_loop clients l = .ok results) :
    results.map resultId = (l.filterMap getToolUse).map (fun tu => some tu.toolUseId) := by
  induction l generalizing results with
  | nil =>
    simp only [execute_requests_loop, Except.ok.injEq] at h
    subst h; simp
  | cons p rest ih =>
    simp only [execute_requests_loop] at h
    split at h
    · rename_i hg
      simp [List.filterMap_cons, hg, ih results h]
    · rename_i tu hg
      split at h
      · simp at h
      · rename_i r he
        split at h
        · simp at h
        · rename_i rs hl
          simp only [Except.ok.injEq] at h
          subst h
          simp [List.filterMap_cons, hg, ih rs hl, exec_req_resultId clients tu r he]

theorem filterMap_getToolUse_filter (parts : List MsgPart) :
    (parts.filter hasToolUseKey).filterMap getToolUse = parts.filterMap getToolUse := by
  induction parts with
  | nil => rfl
  | cons p rest ih =>
    match p with
    | .toolUsePart none =>
      simp [List.filter_cons, hasToolUseKey, List.filterMap_cons, getToolUse, ih]
    | .toolUsePart (some tu) =>
      simp [List.filter_cons, hasToolUseKey, List.filterMap_cons, getToolUse, ih]
    | .toolResultPart r =>
      simp [List.filter_cons, hasToolUseKey, List.filterMap_cons, getToolUse, ih]
    | .textPart t =>
      simp [List.filter_cons, hasToolUseKey, List.filterMap_cons, getToolUse, ih]
    | .otherPart =>
      simp [List.filter_cons, hasToolUseKey, List.filterMap_cons, getToolUse, ih]

/-- Claim C1, amended: whenever `ToolManager.execute_tool_requests` returns,
the returned list contains exactly one tool-result part per input part whose
`toolUse` entry is truthy (non-null, non-empty), in the same relative order,
and each result part carries the `toolUseId` of its `toolUse` part.  Parts
whose `toolUse` key holds a falsy value are skipped without a result. -/
theorem execute_tool_requests_matches_toolUse_ids
    (clients : List MCPClient) (parts results : List MsgPart)
    (h : execute_tool_requests clients parts = .ok results) :
    results.map resultId
      = (parts.filterMap getToolUse).map (fun tu => some tu.toolUseId) := by
  have hm := exec_loop_ids clients (parts.filter hasToolUseKey) results h
  rwa [filterMap_getToolUse_filter] at hm

/-- Claim C1 counterexample: a part containing a `toolUse` entry whose value
is falsy (`None` or an empty dict) is dropped by the `if not tool_use:
continue` guard, so the returned list has no result part for it even though
the part contains a `toolUse` entry. -/
theorem execute_tool_requests_falsy_toolUse_counterexample :
    execute_tool_requests [] [MsgPart.toolUsePart none] = .ok []
    ∧ (List.filter hasToolUseKey [MsgPart.toolUsePart none]).length = 1 :=
  ⟨rfl, rfl⟩

/-- Claim C1 witness: a concrete batch with one truthy `toolUse` part yields
exactly one matching tool-result part. -/
theorem execute_tool_requests_matches_toolUse_ids_witness :
    List.map resultId [build_tool_result_part (some "u1") "Could not find that tool" "error"]
      = (List.filterMap getToolUse
          [MsgPart.toolUsePart (some ⟨some "u1", some "adder", none⟩)]).map
          (fun tu => some tu.toolUseId) :=
  execute_tool_requests_matches_toolUse_ids [] _ _ rfl

/-- Whether an `Except` value is a success (no exception was raised). -/
def exOk {ε α : Type} : Except ε α → Bool
  | .ok _ => true
  | .error _ => false

theorem exec_loop_mem (clients : List MCPClient) (l results : List MsgPart)
    (tu : ToolUse) (P : MsgPart)
    (h : execute_requests_loop clients l = .ok results)
    (hmem : MsgPart.toolUsePart (some tu) ∈ l)
    (hP : execute_tool_request clients tu = .ok P) :
    P ∈ results := by
  induction l generalizing results with
  | nil => cases hmem
  | cons p rest ih =>
    simp only [execute_requests_loop] at h
    rcases List.mem_cons.mp hmem with hp | hmem2
    · subst hp
      simp only [getToolUse] at h
      split at h
      · rename_i e he
        rw [hP] at he; cases he
      · rename_i r he
        split at h
        · simp at h
        · rename_i rs hl
          simp only [Except.ok.injEq] at h
          subst h
          have hrP : P = r := by
            rw [hP] at he; exact Except.ok.inj he
          subst hrP
          exact List.mem_cons_self P rs
    · split at h
      · exact ih results h hmem2
      · rename_i tu2 hg2
        split at h
        · simp at h
        · rename_i r he
          split at h
          · simp at h
          · rename_i rs hl
            simp only [Except.ok.injEq] at h
            subst h
            exact List.mem_cons_of_mem r (ih rs hl hmem2)

/-- Claim C3, amended: a pending tool invocation whose tool name no
connected session exposes yields, without throwing, a tool-result part with
`status` `"error"` whose message is `"Could not find that tool"` (not
`"tool not found"`), and this part appears in the returned batch. -/
theorem tool_not_found_yields_error_part
    (clients : List MCPClient) (tu : ToolUse) (parts results : List MsgPart)
    (hfind : find_client_with_tool clients tu.name = .ok none)
    (hmem : MsgPart.toolUsePart (some tu) ∈ parts)
    (hex : execute_tool_requests clients parts = .ok results) :
    execute_tool_request clients tu
      = .ok (build_tool_result_part tu.toolUseId "Could not find that tool" "error")
    ∧ build_tool_result_part tu.toolUseId "Could not find that tool" "error" ∈ results
    ∧ resultStatus (build_tool_result_part tu.toolUseId "Could not find that tool" "error")
        = some "error"
    ∧ resultFirstText (build_tool_result_part tu.toolUseId "Could not find that tool" "error")
        = some "Could not find that tool" := by
  have h1 : execute_tool_request clients tu
      = .ok (build_tool_result_part tu.toolUseId "Could not find that tool" "error") := by
    simp [execute_tool_request, hfind]
  refine ⟨h1, ?_, rfl, rfl⟩
  exact exec_loop_mem clients (parts.filter hasToolUseKey) results tu _
    hex (List.mem_filter.mpr ⟨hmem, rfl⟩) h1

/-- Claim C3 counterexample: the error message produced for an unresolvable
tool is the literal `"Could not find that tool"`, which is not the
`"tool not found"` the claim states. -/
theorem tool_not_found_message_counterexample :
    execute_tool_requests [] [MsgPart.toolUsePart (some ⟨some "u1", some "calc", none⟩)]
      = .ok [build_tool_result_part (some "u1") "Could not find that tool" "error"]
    ∧ resultFirstText (build_tool_result_part (some "u1") "Could not find that tool" "error")
        = some "Could not find that tool"
    ∧ "Could not find that tool" ≠ "tool not found" :=
  ⟨rfl, rfl, by decide⟩

/-- Claim C3 witness: concrete unresolved invocation, no connected session. -/
theorem tool_not_found_yields_error_part_witness :
    execute_tool_request [] ⟨some "u9", some "nosuch", none⟩
      = .ok (build_tool_result_part (some "u9") "Could not find that tool" "error")
    ∧ build_tool_result_part (some "u9") "Could not find that tool" "error"
        ∈ [build_tool_result_part (some "u9") "Could not find that tool" "error"]
    ∧ resultStatus (build_tool_result_part (some "u9") "Could not find that tool" "error")
        = some "error"
    ∧ resultFirstText (build_tool_result_part (some "u9") "Could not find that tool" "error")
        = some "Could not find that tool" :=
  tool_not_found_yields_error_part [] ⟨some "u9", some "nosuch", none⟩
    [MsgPart.toolUsePart (some ⟨some "u9", some "nosuch", none⟩)]
    [build_tool_result_part (some "u9") "Could not find that tool" "error"]
    rfl (List.mem_singleton.mpr rfl) rfl

theorem find_client_ok (clients : List MCPClient) (n : Option String)
    (hlt : ∀ cc ∈ clients, exOk cc.list_tools = true) :
    exOk (find_client_with_tool clients n) = true := by
  induction clients with
  | nil => rfl
  | cons c rest ih =>
    simp only [find_client_with_tool]
    split
    · rename_i e hc
      have h2 := hlt c (List.mem_cons_self c rest)
      rw [hc] at h2; simp [exOk] at h2
    · rename_i tools hc
      split
      · rfl
      · exact ih (fun cc hcc => hlt cc (List.mem_cons_of_mem c hcc))

theorem exec_req_ok (clients : List MCPClient) (tu : ToolUse)
    (hlt : ∀ cc ∈ clients, exOk cc.list_tools = true) :
    exOk (execute_tool_request clients tu) = true := by
  simp only [execute_tool_request]
  split
  · rename_i e hf
    have hfind := find_client_ok clients tu.name hlt
    rw [hf] at hfind; simp [exOk] at hfind
  · rfl
  · rename_i c hf
    split
    · rfl
    · rfl

theorem exec_loop_ok (clients : List MCPClient) (l : List MsgPart)
    (hlt : ∀ cc ∈ clients, exOk cc.list_tools = true) :
    exOk (execute_requests_loop clients l) = true := by
  induction l with
  | nil => rfl
  | cons p rest ih =>
    simp only [execute_requests_loop]
    split
    · exact ih
    · rename_i tu hg
      split
      · rename_i e he
        have h1 := exec_req_ok clients tu hlt
        rw [he] at h1; simp [exOk] at h1
      · rename_i r he
        split
        · rename_i e hl
          rw [hl] at ih; simp [exOk] at ih
        · rfl

/-- Claim C4: an exception raised by the owning session's `call_tool` is
caught and converted into a tool-result part with `status` `"error"` whose
text is the serialized diagnostic
`Error executing tool '<name>': <exception>` - and, as long as every
session's catalog fetch succeeds (so that owner resolution itself cannot
raise), `execute_tool_requests` never propagates an exception, whatever the
batch of parts. -/
theorem tool_execution_fault_recovered
    (clients : List MCPClient) (tu : ToolUse) (c : MCPClient) (e : String)
    (parts : List MsgPart)
    (hfind : find_client_with_tool clients tu.name = .ok (some c))
    (hcall : c.call_tool tu.name (tu.input.getD (Json.obj [])) = .error e)
    (hlt : ∀ cc ∈ clients, exOk cc.list_tools = true) :
    execute_tool_request clients tu
      = .ok (MsgPart.toolResultPart
          ⟨tu.toolUseId, [⟨dumps_error_obj (exec_error_message tu.name e)⟩], "error"⟩)
    ∧ resultStatus (MsgPart.toolResultPart
          ⟨tu.toolUseId, [⟨dumps_error_obj (exec_error_message tu.name e)⟩], "error"⟩)
        = some "error"
    ∧ exOk (execute_tool_requests clients parts) = true := by
  refine ⟨?_, rfl, exec_loop_ok clients (parts.filter hasToolUseKey) hlt⟩
  simp [execute_tool_request, hfind, hcall]

/-- A session whose tool raises during execution (for the C4 witness). -/
def c4client : MCPClient :=
  ⟨0, .ok [⟨"boom", "a tool that raises"⟩], fun _ _ => .error "kaboom"⟩

/-- Claim C4 witness: the concrete faulting session is recovered into an
error part and the batch execution succeeds. -/
theorem tool_execution_fault_recovered_witness :
    execute_tool_request [c4client] ⟨some "u2", some "boom", none⟩
      = .ok (MsgPart.toolResultPart
          ⟨some "u2", [⟨dumps_error_obj (exec_error_message (some "boom") "kaboom")⟩], "error"⟩)
    ∧ resultStatus (MsgPart.toolResultPart
          ⟨some "u2", [⟨dumps_error_obj (exec_error_message (some "boom") "kaboom")⟩], "error"⟩)
        = some "error"
    ∧ exOk (execute_tool_requests [c4client]
          [MsgPart.toolUsePart (some ⟨some "u2", some "boom", none⟩)]) = true :=
  tool_execution_fault_recovered [c4client] ⟨some "u2", some "boom", none⟩ c4client "kaboom"
    [MsgPart.toolUsePart (some ⟨some "u2", some "boom", none⟩)]
    rfl rfl (by intro cc hcc; rw [List.mem_singleton] at hcc; subst hcc; rfl)

/-- The catalog a session contributes when its fetch succeeds. -/
def okTools (c : MCPClient) : List Tool :=
  match c.list_tools with
  | .ok l => l
  | .error _ => []

theorem get_all_tools_ok_of_all (clients : List MCPClient)
    (hall : ∀ c ∈ clients, exOk c.list_tools = true) :
    get_all_tools clients = .ok (clients.flatMap okTools) := by
  induction clients with
  | nil => rfl
  | cons c rest ih =>
    simp only [get_all_tools]
    split
    · rename_i e hc
      have h2 := hall c (List.mem_cons_self c rest)
      rw [hc] at h2; simp [exOk] at h2
    · rename_i ts hc
      rw [ih (fun cc hcc => hall cc (List.mem_cons_of_mem c hcc))]
      simp [List.flatMap_cons, okTools, hc]

theorem get_all_tools_all_of_ok (clients : List MCPClient) (ts : List Tool)
    (h : get_all_tools clients = .ok ts) :
    ∀ c ∈ clients, exOk c.list_tools = true := by
  induction clients generalizing ts with
  | nil => intro c hc; cases hc
  | cons c rest ih =>
    simp only [get_all_tools] at h
    split at h
    · cases h
    · rename_i ts0 hc
      split at h
      · cases h
      · rename_i acc hacc
        intro cc hcc
        rcases List.mem_cons.mp hcc with h1 | h2
        · subst h1; rw [hc]; rfl
        · exact ih acc hacc cc h2

/-- Claim C5, amended: `get_all_tools` does not skip a session whose
catalog fetch raises - the exception propagates and aborts the whole
refresh.  Whenever it does return a catalog, every session's fetch
succeeded and the result is the concatenation of all the sessions' tools
in registration order. -/
theorem get_all_tools_all_or_nothing (clients : List MCPClient) (ts : List Tool)
    (h : get_all_tools clients = .ok ts) :
    ts = clients.flatMap okTools
    ∧ ∀ c ∈ clients, exOk c.list_tools = true := by
  have hall := get_all_tools_all_of_ok clients ts h
  refine ⟨?_, hall⟩
  have h2 := get_all_tools_ok_of_all clients hall
  rw [h] at h2
  exact Except.ok.inj h2

/-- A session whose catalog fetch raises (for the C5 counterexample). -/
def c5fail : MCPClient := ⟨0, .error "session unreachable", fun _ _ => .ok none⟩

/-- A healthy session exposing tool `x` (for the C5 counterexample). -/
def c5ok : MCPClient := ⟨1, .ok [⟨"x", "a shared tool"⟩], fun _ _ => .ok none⟩

/-- Claim C5 counterexample: with one unreachable session and one healthy
session, `get_all_tools` propagates the exception instead of returning the
healthy session's tools. -/
theorem get_all_tools_unreachable_counterexample :
    get_all_tools [c5fail, c5ok] = .error "session unreachable"
    ∧ c5ok.list_tools = .ok [⟨"x", "a shared tool"⟩] :=
  ⟨rfl, rfl⟩

/-- Claim C5 witness: with only healthy sessions the refresh returns the
concatenated catalog. -/
theorem get_all_tools_all_or_nothing_witness :
    [Tool.mk "x" "a shared tool"] = [c5ok].flatMap okTools :=
  (get_all_tools_all_or_nothing [c5ok] [Tool.mk "x" "a shared tool"] rfl).1

theorem find_cons_ok (c : MCPClient) (rest : List MCPClient)
    (toolName : Option String) (tools : List Tool)
    (hc : c.list_tools = .ok tools) :
    find_client_with_tool (c :: rest) toolName
      = match tools.find? (tool_name_matches toolName) with
        | some _ => .ok (some c)
        | none => find_client_with_tool rest toolName := by
  simp only [find_client_with_tool, hc]

/-- Claim C6: when several connected sessions expose a tool with the same
name, `_find_client_with_tool` resolves that name to the session registered
first: whatever comes later in the list (including another session exposing
the same name) is never consulted.  The function is pure, so repeated
resolutions over unchanged sessions give the same session. -/
theorem resolve_prefers_first_registered
    (pre : List MCPClient) (c : MCPClient) (rest : List MCPClient) (name : String)
    (hpre : ∀ p ∈ pre, ∃ l, p.list_tools = .ok l ∧ ∀ t ∈ l, t.name ≠ name)
    (hc : ∃ l, c.list_tools = .ok l ∧ ∃ t ∈ l, t.name = name) :
    find_client_with_tool (pre ++ c :: rest) (some name) = .ok (some c) := by
  induction pre with
  | nil =>
    obtain ⟨l, hl, t, htl, hname⟩ := hc
    rw [List.nil_append, find_cons_ok c rest (some name) l hl]
    have hfound : (l.find? (tool_name_matches (some name))).isSome := by
      rw [List.find?_isSome]
      exact ⟨t, htl, by simp [tool_name_matches, hname]⟩
    obtain ⟨t2, ht2⟩ := Option.isSome_iff_exists.mp hfound
    rw [ht2]
  | cons p pre2 ih =>
    obtain ⟨l, hl, hnone⟩ := hpre p (List.mem_cons_self p pre2)
    rw [List.cons_append, find_cons_ok p (pre2 ++ c :: rest) (some name) l hl]
    have hfind : l.find? (tool_name_matches (some name)) = none := by
      rw [List.find?_eq_none]
      intro t htl
      simp only [tool_name_matches, beq_iff_eq]
      exact hnone t htl
    rw [hfind]
    exact ih (fun q hq => hpre q (List.mem_cons_of_mem p hq))

/-- The session registered first, exposing tool `x` (C6 witness). -/
def c6first : MCPClient := ⟨0, .ok [⟨"x", "first provider"⟩], fun _ _ => .ok none⟩

/-- The session registered second, also exposing tool `x` (C6 witness). -/
def c6second : MCPClient := ⟨1, .ok [⟨"x", "second provider"⟩], fun _ _ => .ok none⟩

/-- Claim C6 witness: two sessions both exposing `x`; resolution returns the
first-registered one. -/
theorem resolve_prefers_first_registered_witness :
    find_client_with_tool [c6first, c6second] (some "x") = .ok (some c6first) :=
  resolve_prefers_first_registered [] c6first [c6second] "x"
    (fun p hp => absurd hp (List.not_mem_nil p))
    ⟨[⟨"x", "first provider"⟩], rfl,
      ⟨"x", "first provider"⟩, List.mem_singleton.mpr rfl, rfl⟩

/-- The batch of tool results a round produces, when execution succeeds. -/
def okResults (clients : List MCPClient) (parts : List MsgPart) : List MsgPart :=
  match execute_tool_requests clients parts with
  | .ok l => l
  | .error _ => []

/-- The two turns a `tool_use` round appends: the assistant turn holding the
response parts, then the tool-result turn (a user-role Bedrock message)
holding that round's tool results. -/
def round_messages (clients : List MCPClient) (s : BedrockResponse) : List Message :=
  [⟨"assistant", s.parts⟩, ⟨"user", okResults clients s.parts⟩]

theorem chat_loop_shape (clients : List MCPClient) (script : List BedrockResponse)
    (messages finalMsgs : List Message) (finalText : String)
    (h : chat_loop clients script messages = .ok (finalMsgs, finalText)) :
    ∃ pre r post, script = pre ++ r :: post
      ∧ (∀ s ∈ pre, s.stop_reason = "tool_use"
          ∧ exOk (execute_tool_requests clients s.parts) = true)
      ∧ r.stop_reason ≠ "tool_use"
      ∧ finalText = r.text
      ∧ finalMsgs = messages ++ pre.flatMap (round_messages clients)
          ++ [⟨"assistant", r.parts⟩] := by
  induction script generalizing messages with
  | nil => cases h
  | cons r rest ih =>
    simp only [chat_loop] at h
    split at h
    · cases h
    · rename_i ts hts
      split at h
      · rename_i hstop
        split at h
        · cases h
        · rename_i trp htrp
          obtain ⟨pre, r2, post, hs, hpre, hr2, htext, hmsgs⟩ := ih _ h
          refine ⟨r :: pre, r2, post, by rw [hs, List.cons_append], ?_, hr2, htext, ?_⟩
          · intro s hm
            rcases List.mem_cons.mp hm with h1 | h2
            · subst h1; exact ⟨hstop, by rw [htrp]; rfl⟩
            · exact hpre s h2
          · rw [hmsgs]
            simp [round_messages, okResults, htrp, add_assistant_message,
              add_user_message, List.flatMap_cons, List.append_assoc]
      · rename_i hstop
        simp only [Prod.mk.injEq, Except.ok.injEq] at h
        obtain ⟨h1, h2⟩ := h
        exact ⟨[], r, rest, rfl, by simp, hstop, h2.symm,
          by rw [← h1]; simp [add_assistant_message]⟩

/-- Claim C2: every successful `Chat.run` consists of zero or more
`tool_use` rounds - each appending exactly one assistant turn holding the
response parts followed by exactly one tool-result turn holding all of that
round's results - followed by one final response with a different stop
reason, which appends exactly one assistant turn and whose text is
returned. -/
theorem chat_run_round_structure (clients : List MCPClient)
    (script : List BedrockResponse) (messages : List Message) (query : String)
    (finalMsgs : List Message) (finalText : String)
    (h : chat_run clients script messages query = .ok (finalMsgs, finalText)) :
    ∃ pre r post, script = pre ++ r :: post
      ∧ (∀ s ∈ pre, s.stop_reason = "tool_use"
          ∧ exOk (execute_tool_requests clients s.parts) = true)
      ∧ r.stop_reason ≠ "tool_use"
      ∧ finalText = r.text
      ∧ finalMsgs = chat_process_query messages query
          ++ pre.flatMap (round_messages clients) ++ [⟨"assistant", r.parts⟩] :=
  chat_loop_shape clients script (chat_process_query messages query)
    finalMsgs finalText h

/-- A `tool_use` backend response (C2 witness). -/
def chatR1 : BedrockResponse :=
  ⟨[MsgPart.toolUsePart (some ⟨some "u1", some "t", none⟩)], "tool_use", "using tool"⟩

/-- A final backend response (C2 witness). -/
def chatR2 : BedrockResponse := ⟨[MsgPart.textPart "done"], "end_turn", "done"⟩

/-- Claim C2 witness: a concrete run with one tool round then a final
answer has the round structure and returns the final text. -/
theorem chat_run_round_structure_witness :
    ∃ pre r post, [chatR1, chatR2] = pre ++ r :: post
      ∧ (∀ s ∈ pre, s.stop_reason = "tool_use"
          ∧ exOk (execute_tool_requests [] s.parts) = true)
      ∧ r.stop_reason ≠ "tool_use"
      ∧ "done" = r.text
      ∧ [Message.mk "user" [MsgPart.textPart "hi"],
         Message.mk "assistant" [MsgPart.toolUsePart (some ⟨some "u1", some "t", none⟩)],
         Message.mk "user" [build_tool_result_part (some "u1") "Could not find that tool" "error"],
         Message.mk "assistant" [MsgPart.textPart "done"]]
          = chat_process_query [] "hi" ++ pre.flatMap (round_messages [])
            ++ [⟨"assistant", r.parts⟩] :=
  chat_run_round_structure [] [chatR1, chatR2] [] "hi" _ "done" rfl

/-- A document session serving a one-message prompt template (C7). -/
def d7client : DocClient :=
  ⟨fun command doc_id =>
      [⟨"user", PromptContent.text ("prompt " ++ command ++ " for " ++ doc_id)⟩],
   [], fun _ => ""⟩

/-- Claim C7 counterexample: for the command input `"/summary doc42"` the
orchestrator still calls the model backend after appending the prompt
template - with no backend response available the run fails needing one,
and with one available the run returns that backend response's text and
appends the assistant turn built from it. -/
theorem command_input_still_calls_backend_counterexample :
    cli_run d7client [] [] [] "/summary doc42" = .error "backend unavailable"
    ∧ cli_run d7client []
        [⟨[MsgPart.textPart "model was called"], "end_turn", "model was called"⟩]
        [] "/summary doc42"
      = .ok ([Message.mk "user" [MsgPart.textPart "prompt summary for doc42"],
              Message.mk "assistant" [MsgPart.textPart "model was called"]],
             "model was called") :=
  ⟨rfl, rfl⟩

/-- Claim C7, amended: a command-prefixed input with an argument bypasses
the query-wrapping path - the prompt template fetched from the document
session is converted to turns and appended directly, with no user turn
wrapping the raw query - but `Chat.run` then still calls the model backend
on the updated log (and tool rounds may follow as usual). -/
theorem command_path_appends_template_then_model
    (d : DocClient) (clients : List MCPClient) (script : List BedrockResponse)
    (messages : List Message) (q : String)
    (h1 : startsWithSlash q = true) (h2 : 2 ≤ (pySplit q).length) :
    cli_process_query d messages q
      = .ok (messages ++ to_bedrock_messages
          (d.get_prompt (removeSlashes ((pySplit q).headD ""))
            ((pySplit q).getD 1 "")))
    ∧ cli_run d clients script messages q
      = chat_loop clients script (messages ++ to_bedrock_messages
          (d.get_prompt (removeSlashes ((pySplit q).headD ""))
            ((pySplit q).getD 1 ""))) := by
  have hlt : 1 < (pySplit q).length := h2
  have hg := List.get?_eq_get hlt
  have hgd : (pySplit q).getD 1 "" = (pySplit q).get ⟨1, hlt⟩ := by
    rw [List.getD_eq_get?, hg]; rfl
  have hmain : process_command d messages q
      = .ok (some (messages ++ to_bedrock_messages
          (d.get_prompt (removeSlashes ((pySplit q).headD ""))
            ((pySplit q).getD 1 "")))) := by
    simp only [process_command, h1, if_true]
    rw [hg, hgd]
  have hq : cli_process_query d messages q
      = .ok (messages ++ to_bedrock_messages
          (d.get_prompt (removeSlashes ((pySplit q).headD ""))
            ((pySplit q).getD 1 ""))) := by
    simp only [cli_process_query, hmain]
  exact ⟨hq, by simp only [cli_run, hq]⟩

/-- Claim C7 witness: the concrete command input appends exactly the
template-derived turn and then hands the updated log to the model loop. -/
theorem command_path_appends_template_then_model_witness :
    cli_process_query d7client [] "/summary doc42"
      = .ok ([] ++ to_bedrock_messages
          (d7client.get_prompt (removeSlashes ((pySplit "/summary doc42").headD ""))
            ((pySplit "/summary doc42").getD 1 "")))
    ∧ cli_run d7client [] [] [] "/summary doc42"
      = chat_loop [] [] ([] ++ to_bedrock_messages
          (d7client.get_prompt (removeSlashes ((pySplit "/summary doc42").headD ""))
            ((pySplit "/summary doc42").getD 1 ""))) :=
  command_path_appends_template_then_model d7client [] [] [] "/summary doc42"
    rfl (by decide)

/-- A document session with no templates or documents (C10). -/
def d10client : DocClient := ⟨fun _ _ => [], [], fun _ => ""⟩

/-- Claim C10: a `/`-prefixed input with no second whitespace-separated
token makes `_process_command` read `words[1]` out of range: the uncaught
`IndexError` escapes `_process_command`, `_process_query` and `run`. -/
theorem slash_command_without_argument_errors
    (d : DocClient) (clients : List MCPClient) (script : List BedrockResponse)
    (messages : List Message) (q : String)
    (h1 : startsWithSlash q = true) (h2 : (pySplit q).length < 2) :
    process_command d messages q = .error "IndexError: list index out of range"
    ∧ cli_process_query d messages q = .error "IndexError: list index out of range"
    ∧ cli_run d clients script messages q
        = .error "IndexError: list index out of range" := by
  have hnone : (pySplit q).get? 1 = none := by
    rw [List.get?_eq_none]
    omega
  have hmain : process_command d messages q
      = .error "IndexError: list index out of range" := by
    simp only [process_command, h1, if_true]
    rw [hnone]
  have hq : cli_process_query d messages q
      = .error "IndexError: list index out of range" := by
    simp only [cli_process_query, hmain]
  exact ⟨hmain, hq, by simp only [cli_run, hq]⟩

/-- Claim C10 witness: the bare input `"/summary"` crashes the
query-processing path with the index error. -/
theorem slash_command_without_argument_errors_witness :
    process_command d10client [] "/summary"
        = .error "IndexError: list index out of range"
    ∧ cli_process_query d10client [] "/summary"
        = .error "IndexError: list index out of range"
    ∧ cli_run d10client [] [] [] "/summary"
        = .error "IndexError: list index out of range" :=
  slash_command_without_argument_errors d10client [] [] [] "/summary"
    rfl (by decide)

/-- The streamed event sequence of claim C8: one tool-use block at index 1
whose JSON arguments arrive split across two deltas. -/
def c8events : List StreamEvent :=
  [.content_block_start (some 1) "tool_use" "add",
   .content_block_delta 1 (.input_json_delta "\x7b\"a\":1,"),
   .content_block_delta 1 (.input_json_delta "\"b\":2\x7d"),
   .content_block_stop 1]

/-- Claim C8: the event sequence `start(1,tool_use,"add")`,
`delta(1, first half)`, `delta(1, second half)`, `stop(1)` emits exactly
one completed tool invocation, named `add`, whose input is `json.loads` of
the concatenation of the argument deltas in arrival order; before the
`stop` event nothing has been emitted and the buffer holds exactly the
unparsed concatenation. -/
theorem stream_assembles_single_tool_call :
    (run_events ⟨"", []⟩ c8events).2
      = [StreamOutput.toolCall "add"
          (.parsed (Json.obj [("a", Json.num 1), ("b", Json.num 2)]))]
    ∧ (run_events ⟨"", []⟩ (c8events.take 3)).2 = []
    ∧ (run_events ⟨"", []⟩ (c8events.take 3)).1.tool_calls
        = [(1, ⟨"add", "\x7b\"a\":1,\"b\":2\x7d"⟩)]
    ∧ loads "\x7b\"a\":1,\"b\":2\x7d"
        = some (Json.obj [("a", Json.num 1), ("b", Json.num 2)]) :=
  ⟨rfl, rfl, rfl, rfl⟩

theorem tcLookup_tcErase (m : List (Nat × ToolCallAcc)) (i : Nat) :
    tcLookup (tcErase m i) i = none := by
  induction m with
  | nil => rfl
  | cons kv rest ih =>
    obtain ⟨k, v⟩ := kv
    simp only [tcErase]
    split
    · exact ih
    · rename_i hki
      simp only [tcLookup]
      rw [if_neg hki]
      exact ih

/-- Claim C9: a `content_block_stop` on a registered index always discards
that index's buffer entry (whatever the parse outcome), and when the
accumulated buffer is not valid JSON the handler falls back to emitting the
raw accumulated string - the malformed arguments are not lost, and the
handler (a total function) raises nothing. -/
theorem block_stop_discards_and_falls_back
    (st : StreamState) (i : Nat) (acc : ToolCallAcc)
    (hlook : tcLookup st.tool_calls i = some acc) :
    (handle_event st (.content_block_stop i)).1.tool_calls
        = tcErase st.tool_calls i
    ∧ tcLookup ((handle_event st (.content_block_stop i)).1.tool_calls) i = none
    ∧ (loads acc.args = none →
        handle_event st (.content_block_stop i)
          = ({ st with tool_calls := tcErase st.tool_calls i },
             [.toolCall acc.name (.raw acc.args)])) := by
  have h1 : (handle_event st (.content_block_stop i)).1.tool_calls
      = tcErase st.tool_calls i := by
    simp only [handle_event, hlook]
  refine ⟨h1, by rw [h1]; exact tcLookup_tcErase st.tool_calls i, ?_⟩
  intro hbad
  simp only [handle_event, hlook, hbad]

/-- Claim C9 witness: a registered block whose buffer is the malformed
fragment left by a truncated stream is emitted raw and its entry dropped. -/
theorem block_stop_discards_and_falls_back_witness :
    tcLookup ((handle_event ⟨"", [(2, ⟨"calc", "\x7b\"a\":"⟩)]⟩
        (.content_block_stop 2)).1.tool_calls) 2 = none
    ∧ handle_event ⟨"", [(2, ⟨"calc", "\x7b\"a\":"⟩)]⟩ (.content_block_stop 2)
        = (⟨"", []⟩, [.toolCall "calc" (.raw "\x7b\"a\":")]) :=
  ⟨(block_stop_discards_and_falls_back ⟨"", [(2, ⟨"calc", "\x7b\"a\":"⟩)]⟩ 2
      ⟨"calc", "\x7b\"a\":"⟩ rfl).2.1,
   (block_stop_discards_and_falls_back ⟨"", [(2, ⟨"calc", "\x7b\"a\":"⟩)]⟩ 2
      ⟨"calc", "\x7b\"a\":"⟩ rfl).2.2 rfl⟩
